import Mathlib

/-!
Verification of the `@robtimus/concurrent` library (CountDownLatch, Semaphore,
ReadWriteLock, ConcurrentMap) against its natural-language specification.
The TypeScript sources are shallowly embedded: every class becomes a state
structure, every method a pure function on that state, and asynchronous
completions become explicit result values / queued-waiter entries that are
resolved by later events (releases, countdowns, timer firings, action
completions).  JS numbers used as permit/lock counts are embedded as `Int`
(with `Nat` where the source maintains non-negativity by construction).
-/

namespace Concurrent

/-! ## Semaphore (src/Semaphore.ts)

State: `#permits : number`, `#waiting : Acquirer[]`.  An `Acquirer` carries
`permitsNeeded` and a resolution callback; callbacks are represented by the
acquirer's identity (the `id` field) so that "the callback was invoked" is
modelled as "the acquirer appears in the completed list".  The `timed` flag
records whether the acquirer was pushed by the timed `tryAcquire` overload
(and hence holds a timer). -/

/-- A queued waiter of the semaphore (source: `interface Acquirer`). -/
structure Acquirer where
  id : Nat
  permitsNeeded : Int
  timed : Bool
deriving DecidableEq

/-- The semaphore's mutable state (`#permits`, `#waiting`). -/
structure SemState where
  permits : Int
  waiting : List Acquirer
deriving DecidableEq

/-- Outcome of `Semaphore.acquire`: a synchronous throw for negative permits,
an already-resolved promise, or a queued pending promise. -/
inductive SemAcquire where
  | invalidArgument (msg : String)
  | resolved
  | queued
deriving DecidableEq

/-- Source translation of `Semaphore.acquire(permits)`. -/
def semAcquire (s : SemState) (permits : Int) (id : Nat) : SemAcquire × SemState :=
  if permits < 0 then (.invalidArgument (toString permits ++ " < 0"), s)
  else if s.permits ≥ permits then (.resolved, { s with permits := s.permits - permits })
  else (.queued, { s with waiting := s.waiting ++ [⟨id, permits, false⟩] })

/-- Outcome of the synchronous `Semaphore.tryAcquire()` / `tryAcquire(permits)`. -/
inductive SemTryAcquire where
  | invalidArgument (msg : String)
  | immediate (ok : Bool)
deriving DecidableEq

/-- Source translation of the synchronous `Semaphore.tryAcquire` overloads. -/
def semTryAcquire (s : SemState) (permits : Int) : SemTryAcquire × SemState :=
  if permits < 0 then (.invalidArgument (toString permits ++ " < 0"), s)
  else if s.permits ≥ permits then (.immediate true, { s with permits := s.permits - permits })
  else (.immediate false, s)

/-- Outcome of the timed `Semaphore.tryAcquire(options)` overload. -/
inductive SemTryAcquireTimed where
  | invalidArgument (msg : String)
  | resolvedTrue
  | resolvedFalse
  | queuedWithTimer
deriving DecidableEq

/-- Source translation of `Semaphore.tryAcquire({permits, timeout})`. -/
def semTryAcquireTimed (s : SemState) (permits timeout : Int) (id : Nat) :
    SemTryAcquireTimed × SemState :=
  if permits < 0 then (.invalidArgument (toString permits ++ " < 0"), s)
  else if s.permits ≥ permits then (.resolvedTrue, { s with permits := s.permits - permits })
  else if timeout ≤ 0 then (.resolvedFalse, s)
  else (.queuedWithTimer, { s with waiting := s.waiting ++ [⟨id, permits, true⟩] })

/-- One iteration of the `for (const acquirer of waiting)` loop in
`Semaphore.release`: the accumulator is `(permits, newWaiting, completed)`. -/
def semReleaseStep (acc : Int × List Acquirer × List Acquirer) (a : Acquirer) :
    Int × List Acquirer × List Acquirer :=
  if acc.1 ≥ a.permitsNeeded then (acc.1 - a.permitsNeeded, acc.2.1, acc.2.2 ++ [a])
  else (acc.1, acc.2.1 ++ [a], acc.2.2)

/-- Outcome of `Semaphore.release`: a synchronous throw for negative permits,
or the list of acquirers whose callbacks were invoked (in invocation order). -/
inductive SemRelease where
  | invalidArgument (msg : String)
  | completed (acquirers : List Acquirer)
deriving DecidableEq

/-- Source translation of `Semaphore.release(permits)`: add the permits, then
walk the old waiter list once, completing each waiter whose need fits the
running permit count and re-queueing the rest in order. -/
def semRelease (s : SemState) (permits : Int) : SemRelease × SemState :=
  if permits < 0 then (.invalidArgument (toString permits ++ " < 0"), s)
  else
    let r := s.waiting.foldl semReleaseStep (s.permits + permits, [], [])
    (.completed r.2.2, { permits := r.1, waiting := r.2.1 })

/-- Modelled from the spec's drain-protocol wording: walk waiters in FIFO
order; for each waiter, if `available ≥ permits_needed`, subtract and complete
it, removing it from the queue; otherwise leave it in place and continue.
Returns `(finalAvailable, remainingQueue, completedWaiters)`. -/
def drainProtocol : Int → List Acquirer → Int × List Acquirer × List Acquirer
  | p, [] => (p, [], [])
  | p, a :: rest =>
    if p ≥ a.permitsNeeded then
      let r := drainProtocol (p - a.permitsNeeded) rest
      (r.1, r.2.1, a :: r.2.2)
    else
      let r := drainProtocol p rest
      (r.1, a :: r.2.1, r.2.2)

theorem semReleaseStep_foldl (l : List Acquirer) (p : Int) (kept completed : List Acquirer) :
    l.foldl semReleaseStep (p, kept, completed) =
      ((drainProtocol p l).1, kept ++ (drainProtocol p l).2.1,
        completed ++ (drainProtocol p l).2.2) := by
  induction l generalizing p kept completed with
  | nil => simp [drainProtocol]
  | cons a rest ih =>
    by_cases h : p ≥ a.permitsNeeded
    · simp [drainProtocol, semReleaseStep, h, ih]
    · simp [drainProtocol, semReleaseStep, h, ih]

theorem drainProtocol_kept_sublist (p : Int) (l : List Acquirer) :
    (drainProtocol p l).2.1.Sublist l := by
  induction l generalizing p with
  | nil => simp [drainProtocol]
  | cons a rest ih =>
    by_cases h : p ≥ a.permitsNeeded
    · simp only [drainProtocol, if_pos h]
      exact (ih (p - a.permitsNeeded)).cons a
    · simp only [drainProtocol, if_neg h]
      exact (ih p).cons₂ a

theorem drainProtocol_completed_sublist (p : Int) (l : List Acquirer) :
    (drainProtocol p l).2.2.Sublist l := by
  induction l generalizing p with
  | nil => simp [drainProtocol]
  | cons a rest ih =>
    by_cases h : p ≥ a.permitsNeeded
    · simp only [drainProtocol, if_pos h]
      exact (ih (p - a.permitsNeeded)).cons₂ a
    · simp only [drainProtocol, if_neg h]
      exact (ih p).cons a

theorem drainProtocol_permits (p : Int) (l : List Acquirer) :
    (drainProtocol p l).1 + ((drainProtocol p l).2.2.map (·.permitsNeeded)).sum = p := by
  induction l generalizing p with
  | nil => simp [drainProtocol]
  | cons a rest ih =>
    by_cases h : p ≥ a.permitsNeeded
    · simp only [drainProtocol, if_pos h, List.map_cons, List.sum_cons]
      have := ih (p - a.permitsNeeded)
      omega
    · simp only [drainProtocol, if_neg h]
      exact ih p

/-- Claim C2: `release(p)` (for `p ≥ 0`) adds `p` to the available count and
then visits the waiter queue once in FIFO order, completing exactly those
waiters whose `permitsNeeded` fits the running available count (subtracting as
it goes) and keeping every other waiter in its original relative order — as
captured by `drainProtocol`, the spec's drain-protocol recursion.  The kept
and completed lists are order-preserving sublists of the original queue, and
the final permit count is the starting count minus the completed needs.  A
larger waiter does not block a smaller one behind it (third conjunct), and the
spec's concrete scenario holds: with 0 permits and two queued `acquire(3)`,
`release(5)` completes only the first waiter leaving 2 permits, and a
subsequent `release(1)` completes the second leaving 0. -/
theorem sem_release_drain_protocol_C2 :
    (∀ (s : SemState) (p : Int), 0 ≤ p →
      semRelease s p =
        (.completed (drainProtocol (s.permits + p) s.waiting).2.2,
          { permits := (drainProtocol (s.permits + p) s.waiting).1,
            waiting := (drainProtocol (s.permits + p) s.waiting).2.1 })
        ∧ (drainProtocol (s.permits + p) s.waiting).2.1.Sublist s.waiting
        ∧ (drainProtocol (s.permits + p) s.waiting).2.2.Sublist s.waiting
        ∧ (drainProtocol (s.permits + p) s.waiting).1 +
            (((drainProtocol (s.permits + p) s.waiting).2.2.map (·.permitsNeeded)).sum)
            = s.permits + p)
    ∧ semRelease ⟨0, [⟨1, 5, false⟩, ⟨2, 1, false⟩]⟩ 1 =
        (.completed [⟨2, 1, false⟩], ⟨0, [⟨1, 5, false⟩]⟩)
    ∧ semRelease ⟨0, [⟨1, 3, false⟩, ⟨2, 3, false⟩]⟩ 5 =
        (.completed [⟨1, 3, false⟩], ⟨2, [⟨2, 3, false⟩]⟩)
    ∧ semRelease ⟨2, [⟨2, 3, false⟩]⟩ 1 =
        (.completed [⟨2, 3, false⟩], ⟨0, []⟩) := by
  refine ⟨?_, by decide, by decide, by decide⟩
  intro s p hp
  have hneg : ¬p < 0 := not_lt.mpr hp
  refine ⟨?_, drainProtocol_kept_sublist _ _, drainProtocol_completed_sublist _ _,
    drainProtocol_permits _ _⟩
  simp [semRelease, hneg, semReleaseStep_foldl]

/-- Witness for C2 at the spec's drain scenario. -/
theorem sem_release_drain_protocol_C2_witness :
    semRelease ⟨0, [⟨1, 3, false⟩, ⟨2, 3, false⟩]⟩ 5 =
      (.completed (drainProtocol (0 + 5) [⟨1, 3, false⟩, ⟨2, 3, false⟩]).2.2,
        { permits := (drainProtocol (0 + 5) [⟨1, 3, false⟩, ⟨2, 3, false⟩]).1,
          waiting := (drainProtocol (0 + 5) [⟨1, 3, false⟩, ⟨2, 3, false⟩]).2.1 }) := by
  have h := (sem_release_drain_protocol_C2.1 ⟨0, [⟨1, 3, false⟩, ⟨2, 3, false⟩]⟩ 5 (by decide)).1
  exact h

/-- Claim C9: against any semaphore state with non-negative permits (which the
semaphore maintains), `acquire(0)` returns an already-resolved promise,
`tryAcquire(0)` returns `true`, and `tryAcquire({permits: 0, timeout: t})`
resolves immediately with `true` for every `t`, all leaving the permit count
and the waiter queue unchanged. -/
theorem sem_zero_permit_acquire_C9 :
    ∀ (s : SemState), 0 ≤ s.permits →
      (∀ id, semAcquire s 0 id = (.resolved, s))
      ∧ semTryAcquire s 0 = (.immediate true, s)
      ∧ (∀ t id, semTryAcquireTimed s 0 t id = (.resolvedTrue, s)) := by
  intro s hs
  obtain ⟨p, w⟩ := s
  simp only at hs
  refine ⟨fun id => ?_, ?_, fun t id => ?_⟩
  · simp [semAcquire, hs]
  · simp [semTryAcquire, hs]
  · simp [semTryAcquireTimed, hs]

/-- Witness for C9: zero available permits and a non-empty waiter queue. -/
theorem sem_zero_permit_acquire_C9_witness :
    semAcquire ⟨0, [⟨1, 3, false⟩]⟩ 0 7 = (.resolved, ⟨0, [⟨1, 3, false⟩]⟩)
    ∧ semTryAcquire ⟨0, [⟨1, 3, false⟩]⟩ 0 = (.immediate true, ⟨0, [⟨1, 3, false⟩]⟩)
    ∧ semTryAcquireTimed ⟨0, [⟨1, 3, false⟩]⟩ 0 50 7 = (.resolvedTrue, ⟨0, [⟨1, 3, false⟩]⟩) := by
  have h := sem_zero_permit_acquire_C9 ⟨0, [⟨1, 3, false⟩]⟩ (by decide)
  exact ⟨h.1 7, h.2.1, h.2.2 50 7⟩

/-! ## CountDownLatch (src/CountDownLatch.ts)

State: `#count : number` (kept non-negative by the `count > 0` guard in
`countDown`, so embedded as `Nat`) and `#waiting`, the list of pending `await`
callbacks.  A queued waiter is identified by its `id`; `timed` records whether
it was pushed by the timed `await` overload (and hence holds a timer). -/

/-- A queued waiter of the latch (an element of `#waiting`). -/
structure LatchWaiter where
  id : Nat
  timed : Bool
deriving DecidableEq

/-- The latch's mutable state (`#count`, `#waiting`). -/
structure LatchState where
  count : Nat
  waiting : List LatchWaiter
deriving DecidableEq

/-- Outcome of `CountDownLatch.await(timeout?)`: an already-resolved promise,
an untimed queued promise, an immediate rejection with "Timeout expired", or a
queued promise guarded by a timer. -/
inductive LatchAwait where
  | resolved
  | queued
  | rejectedTimeout (msg : String)
  | queuedWithTimer
deriving DecidableEq

/-- Source translation of `CountDownLatch.await(timeout?)`. -/
def latchAwait (s : LatchState) (timeout : Option Int) (id : Nat) : LatchAwait × LatchState :=
  if s.count = 0 then (.resolved, s)
  else
    match timeout with
    | none => (.queued, { s with waiting := s.waiting ++ [⟨id, false⟩] })
    | some t =>
      if t ≤ 0 then (.rejectedTimeout "Timeout expired", s)
      else (.queuedWithTimer, { s with waiting := s.waiting ++ [⟨id, true⟩] })

/-- Source translation of `CountDownLatch.countDown()`.  Returns the new state
together with the list of waiters whose promises were resolved (in enqueue
order), which is the whole queue exactly when the count reaches zero. -/
def latchCountDown (s : LatchState) : LatchState × List LatchWaiter :=
  if s.count > 0 then
    if s.count - 1 = 0 then ({ count := 0, waiting := [] }, s.waiting)
    else ({ s with count := s.count - 1 }, [])
  else (s, [])

/-- Source translation of the timer callback installed by the timed `await`:
the firing timer filters the waiter out of the queue and rejects its promise
with "Timeout expired". -/
def latchTimerFire (s : LatchState) (w : LatchWaiter) : LatchState :=
  { s with waiting := s.waiting.filter (· ≠ w) }

/-- Claim C6: `await(t)` with count 0 resolves immediately for every `t`
(including negative and absent ones); `await(t)` with `t ≤ 0` and positive
count rejects immediately with "Timeout expired"; and `await(t)` with `t > 0`
and positive count enqueues a timer-guarded waiter whose fate is decided by
whichever event fires first — a `countDown` that reaches zero resolves every
queued waiter (the new one included), while its timer firing removes it from
the queue and rejects its promise with "Timeout expired". -/
theorem latch_await_timeout_C6 :
    ∀ (s : LatchState) (id : Nat),
      (s.count = 0 → ∀ timeout, latchAwait s timeout id = (.resolved, s))
      ∧ (s.count > 0 → ∀ t ≤ 0,
          latchAwait s (some t) id = (.rejectedTimeout "Timeout expired", s))
      ∧ (s.count > 0 → ∀ t, 0 < t →
          latchAwait s (some t) id =
            (.queuedWithTimer, { s with waiting := s.waiting ++ [⟨id, true⟩] })
          ∧ (s.count = 1 →
              latchCountDown { s with waiting := s.waiting ++ [⟨id, true⟩] } =
                (⟨0, []⟩, s.waiting ++ [⟨id, true⟩]))
          ∧ ((⟨id, true⟩ : LatchWaiter) ∉ s.waiting →
              latchTimerFire { s with waiting := s.waiting ++ [⟨id, true⟩] } ⟨id, true⟩ = s)) := by
  intro s id
  refine ⟨?_, ?_, ?_⟩
  · intro h0 timeout
    simp [latchAwait, h0]
  · intro hpos t ht
    have h0 : ¬s.count = 0 := by omega
    simp [latchAwait, h0, ht]
  · intro hpos t ht
    have h0 : ¬s.count = 0 := by omega
    have ht' : ¬t ≤ 0 := not_le.mpr ht
    refine ⟨by simp [latchAwait, h0, ht'], ?_, ?_⟩
    · intro h1
      simp [latchCountDown, h1]
    · intro hnotin
      obtain ⟨c, w⟩ := s
      have h1 : List.filter (fun x => decide (x ≠ (⟨id, true⟩ : LatchWaiter))) w = w := by
        apply List.filter_eq_self.mpr
        intro a ha
        simp only [ne_eq, decide_eq_true_eq]
        intro heq
        exact hnotin (heq ▸ ha)
      simp only [latchTimerFire, List.filter_append, h1]
      simp only [List.filter_cons, List.filter_nil]
      simp

/-- Witness for C6: a latch with count 1 behaves as claimed for a timed await
with timeout 50. -/
theorem latch_await_timeout_C6_witness :
    latchAwait ⟨1, []⟩ (some 50) 0 = (.queuedWithTimer, ⟨1, [⟨0, true⟩]⟩)
    ∧ latchCountDown ⟨1, [⟨0, true⟩]⟩ = (⟨0, []⟩, [⟨0, true⟩])
    ∧ latchTimerFire ⟨1, [⟨0, true⟩]⟩ ⟨0, true⟩ = ⟨1, []⟩
    ∧ latchAwait ⟨0, []⟩ (some (-1)) 1 = (.resolved, ⟨0, []⟩)
    ∧ latchAwait ⟨1, []⟩ (some 0) 1 = (.rejectedTimeout "Timeout expired", ⟨1, []⟩) := by
  have h := latch_await_timeout_C6 ⟨1, []⟩ 0
  have h3 := (h.2.2 (by decide) 50 (by decide))
  have h4 := (latch_await_timeout_C6 ⟨0, []⟩ 1).1 (by decide) (some (-1))
  have h5 := (latch_await_timeout_C6 ⟨1, []⟩ 1).2.1 (by decide) 0 (by decide)
  exact ⟨h3.1, h3.2.1 rfl, h3.2.2 (by decide), h4, h5⟩

/-! ## ReadWriteLock (src/ReadWriteLock.ts)

State: `#counts : {read, write}` (JS numbers, embedded as `Int`), `#waiting :
Lock[]` and the immutable `#fair` flag.  A queued `Lock` carries its type and
a resolution callback; callbacks are represented by the waiter's identity, so
"the callback was invoked" is modelled as membership in the activated list a
transition returns.  Lock handles (`ReadLockImpl`/`WriteLockImpl`) are
embedded as records holding their `#held` flag. -/

/-- The two lock types (source: `type LockType = "read" | "write"`). -/
inductive LockType where
  | read
  | write
deriving DecidableEq

/-- A queued waiter of the read/write lock (source: `interface Lock`).
`timed` records whether it was pushed with a timeout (and holds a timer). -/
structure LockWaiter where
  id : Nat
  type : LockType
  timed : Bool
deriving DecidableEq

/-- The read/write lock's mutable state (`#counts`, `#waiting`, `#fair`). -/
structure RWState where
  readCount : Int
  writeCount : Int
  waiting : List LockWaiter
  fair : Bool
deriving DecidableEq

/-- A read-lock handle; `held` is the `ReadLockImpl.#held` flag. -/
structure ReadLockHandle where
  held : Bool
deriving DecidableEq

/-- A write-lock handle; `held` is the `WriteLockImpl.#held` flag. -/
structure WriteLockHandle where
  held : Bool
deriving DecidableEq

/-- Source translation of `#newReadLock`: a fresh handle is held. -/
def newReadLockHandle : ReadLockHandle := ⟨true⟩

/-- Source translation of `#newWriteLock`: a fresh handle is held. -/
def newWriteLockHandle : WriteLockHandle := ⟨true⟩

/-- One iteration of the non-fair `for (const lock of waiting)` loop in
`#activateReadLocks`: the accumulator is `(readCount, newWaiting, activated)`. -/
def rwActivateReadStep (acc : Int × List LockWaiter × List LockWaiter) (l : LockWaiter) :
    Int × List LockWaiter × List LockWaiter :=
  if l.type = .read then (acc.1 + 1, acc.2.1, acc.2.2 ++ [l])
  else (acc.1, acc.2.1 ++ [l], acc.2.2)

/-- Source translation of `#activateReadLocks`: in fair mode shift consecutive
read waiters off the head (incrementing the read count and completing each);
in non-fair mode walk the whole queue, activating every read waiter and
re-queueing write waiters in order.  Returns the new state and the activated
waiters in completion order. -/
def rwActivateReadLocks (s : RWState) : RWState × List LockWaiter :=
  if s.fair then
    let activated := s.waiting.takeWhile (fun l => l.type = LockType.read)
    ({ s with readCount := s.readCount + activated.length,
              waiting := s.waiting.dropWhile (fun l => l.type = LockType.read) }, activated)
  else
    let r := s.waiting.foldl rwActivateReadStep (s.readCount, [], [])
    ({ s with readCount := r.1, waiting := r.2.1 }, r.2.2)

/-- Source translation of `#activateLocks`: pop the head waiter (if any),
increment its count and complete it; if it was a read waiter, additionally run
`#activateReadLocks`. -/
def rwActivateLocks (s : RWState) : RWState × List LockWaiter :=
  match s.waiting with
  | [] => (s, [])
  | l :: rest =>
    match l.type with
    | .read =>
      let r := rwActivateReadLocks
        { s with readCount := s.readCount + 1, waiting := rest }
      (r.1, l :: r.2)
    | .write => ({ s with writeCount := s.writeCount + 1, waiting := rest }, [l])

/-- Source translation of `#releaseReadLock`: decrement the read count and, on
reaching zero, activate pending locks. -/
def rwReleaseReadLock (s : RWState) : RWState × List LockWaiter :=
  if s.readCount - 1 = 0 then rwActivateLocks { s with readCount := s.readCount - 1 }
  else ({ s with readCount := s.readCount - 1 }, [])

/-- Source translation of `#releaseWriteLock`: decrement the write count and,
on reaching zero, activate pending locks. -/
def rwReleaseWriteLock (s : RWState) : RWState × List LockWaiter :=
  if s.writeCount - 1 = 0 then rwActivateLocks { s with writeCount := s.writeCount - 1 }
  else ({ s with writeCount := s.writeCount - 1 }, [])

/-- Outcome of enqueueing through `#acquireLock`: a pending promise (with or
without a timer), or the immediate rejection for a non-positive timeout. -/
inductive RWQueueOutcome where
  | queued (timed : Bool)
  | rejectedTimeout (msg : String)
deriving DecidableEq

/-- Source translation of `#acquireLock` (the queueing slow path shared by
both acquisition methods). -/
def rwAcquireLock (s : RWState) (t : LockType) (timeout : Option Int) (id : Nat) :
    RWQueueOutcome × RWState :=
  match timeout with
  | none => (.queued false, { s with waiting := s.waiting ++ [⟨id, t, false⟩] })
  | some tm =>
    if tm ≤ 0 then (.rejectedTimeout "Timeout expired", s)
    else (.queued true, { s with waiting := s.waiting ++ [⟨id, t, true⟩] })

/-- Outcome of `acquireReadLock`. -/
inductive RWAcqRead where
  | granted (handle : ReadLockHandle)
  | queued (timed : Bool)
  | rejectedTimeout (msg : String)
deriving DecidableEq

/-- Source translation of `ReadWriteLock.acquireReadLock(timeout?)`. -/
def rwAcquireReadLock (s : RWState) (timeout : Option Int) (id : Nat) : RWAcqRead × RWState :=
  if (0 < s.readCount ∧ s.fair = false) ∨ (¬0 < s.writeCount ∧ s.waiting = []) then
    (.granted newReadLockHandle, { s with readCount := s.readCount + 1 })
  else
    match rwAcquireLock s .read timeout id with
    | (.queued timed, s') => (.queued timed, s')
    | (.rejectedTimeout m, s') => (.rejectedTimeout m, s')

/-- Outcome of `acquireWriteLock`. -/
inductive RWAcqWrite where
  | granted (handle : WriteLockHandle)
  | queued (timed : Bool)
  | rejectedTimeout (msg : String)
deriving DecidableEq

/-- Source translation of `ReadWriteLock.acquireWriteLock(timeout?)`. -/
def rwAcquireWriteLock (s : RWState) (timeout : Option Int) (id : Nat) : RWAcqWrite × RWState :=
  if s.readCount = 0 ∧ s.writeCount = 0 then
    (.granted newWriteLockHandle, { s with writeCount := s.writeCount + 1 })
  else
    match rwAcquireLock s .write timeout id with
    | (.queued timed, s') => (.queued timed, s')
    | (.rejectedTimeout m, s') => (.rejectedTimeout m, s')

/-- Source translation of `#downgradeToReadLock`: increment the read count,
decrement the write count, activate read waiters, return a fresh read handle. -/
def rwDowngradeToReadLock (s : RWState) : RWState × List LockWaiter × ReadLockHandle :=
  let r := rwActivateReadLocks
    { s with readCount := s.readCount + 1, writeCount := s.writeCount - 1 }
  (r.1, r.2, newReadLockHandle)

/-- Source translation of the timeout callback installed by `#acquireLock`: a
firing timer filters its waiter out of the queue (and rejects its promise with
"Timeout expired"). -/
def rwTimerFire (s : RWState) (w : LockWaiter) : RWState :=
  { s with waiting := s.waiting.filter (· ≠ w) }

/-- Source translation of `ReadLockImpl.release`: verify the handle is held
(else throw "Read lock is no longer held"), run the lock's release, mark the
handle not held.  Returns the updated handle, state and activated waiters. -/
def readLockRelease (h : ReadLockHandle) (s : RWState) :
    Except String (ReadLockHandle × RWState × List LockWaiter) :=
  if h.held = false then .error "Read lock is no longer held"
  else
    let r := rwReleaseReadLock s
    .ok (⟨false⟩, r.1, r.2)

/-- Source translation of `ReadLockImpl.upgradeToWriteLock`: release the read
lock first (throwing "Read lock is no longer held" if it is not held), then
acquire a write lock with the given timeout. -/
def readLockUpgradeToWriteLock (h : ReadLockHandle) (s : RWState) (timeout : Option Int)
    (id : Nat) : Except String (ReadLockHandle × RWAcqWrite × RWState × List LockWaiter) :=
  match readLockRelease h s with
  | .error e => .error e
  | .ok (h', s1, act) =>
    let r := rwAcquireWriteLock s1 timeout id
    .ok (h', r.1, r.2, act)

/-- Source translation of `WriteLockImpl.downgradeToReadLock`: verify the
handle is held (else throw "Write lock is no longer held"), downgrade, mark
the write handle not held. -/
def writeLockDowngradeToReadLock (h : WriteLockHandle) (s : RWState) :
    Except String (WriteLockHandle × ReadLockHandle × RWState × List LockWaiter) :=
  if h.held = false then .error "Write lock is no longer held"
  else
    let r := rwDowngradeToReadLock s
    .ok (⟨false⟩, r.2.2, r.1, r.2.1)

/-- States reachable by any interleaving of the lock's operations.  Releases,
downgrades and upgrades happen only through a held handle (`#verifyHeld`), and
a held read (resp. write) handle exists only when the matching count is
positive — the `0 < count` guards encode exactly that handle discipline. -/
inductive RWReachable : RWState → Prop where
  | init (fair : Bool) : RWReachable ⟨0, 0, [], fair⟩
  | acquireRead (s : RWState) (timeout : Option Int) (id : Nat) :
      RWReachable s → RWReachable (rwAcquireReadLock s timeout id).2
  | acquireWrite (s : RWState) (timeout : Option Int) (id : Nat) :
      RWReachable s → RWReachable (rwAcquireWriteLock s timeout id).2
  | releaseRead (s : RWState) : RWReachable s → 0 < s.readCount →
      RWReachable (rwReleaseReadLock s).1
  | releaseWrite (s : RWState) : RWReachable s → 0 < s.writeCount →
      RWReachable (rwReleaseWriteLock s).1
  | downgrade (s : RWState) : RWReachable s → 0 < s.writeCount →
      RWReachable (rwDowngradeToReadLock s).1
  | upgrade (s : RWState) (timeout : Option Int) (id : Nat) : RWReachable s →
      0 < s.readCount → RWReachable (rwAcquireWriteLock (rwReleaseReadLock s).1 timeout id).2
  | timerFire (s : RWState) (w : LockWaiter) : RWReachable s → RWReachable (rwTimerFire s w)

/-- The strengthened induction invariant for C4: counts are non-negative, the
write count is 0 or 1, and an active reader excludes an active writer. -/
def RWInvA (s : RWState) : Prop :=
  0 ≤ s.readCount ∧ (s.writeCount = 0 ∨ s.writeCount = 1) ∧ (0 < s.readCount → s.writeCount = 0)
theorem lockType_not_read {t : LockType} : (¬t = LockType.read) ↔ t = LockType.write := by
  cases t <;> simp

theorem rwActivateReadStep_foldl (l : List LockWaiter) (c : Int) (kept act : List LockWaiter) :
    l.foldl rwActivateReadStep (c, kept, act) =
      (c + (l.filter (fun x => x.type = LockType.read)).length,
       kept ++ l.filter (fun x => x.type = LockType.write),
       act ++ l.filter (fun x => x.type = LockType.read)) := by
  induction l generalizing c kept act with
  | nil => simp
  | cons a rest ih =>
    by_cases h : a.type = LockType.read
    · have hw : ¬a.type = LockType.write := by
        rw [h]
        exact fun hc => LockType.noConfusion hc
      simp only [List.foldl_cons]
      rw [show rwActivateReadStep (c, kept, act) a = (c + 1, kept, act ++ [a]) by
        simp [rwActivateReadStep, h]]
      rw [ih]
      simp [List.filter_cons, h, hw, Prod.mk.injEq]
      omega
    · have hw : a.type = LockType.write := lockType_not_read.mp h
      simp only [List.foldl_cons]
      rw [show rwActivateReadStep (c, kept, act) a = (c, kept ++ [a], act) by
        simp [rwActivateReadStep, h]]
      rw [ih]
      simp [List.filter_cons, h, hw, Prod.mk.injEq]

theorem rwActivateReadLocks_fair (s : RWState) (hf : s.fair = true) :
    rwActivateReadLocks s =
      ({ s with
          readCount :=
            s.readCount + (s.waiting.takeWhile (fun l => l.type = LockType.read)).length,
          waiting := s.waiting.dropWhile (fun l => l.type = LockType.read) },
       s.waiting.takeWhile (fun l => l.type = LockType.read)) := by
  simp [rwActivateReadLocks, hf]

theorem rwActivateReadLocks_nonfair (s : RWState) (hf : s.fair = false) :
    rwActivateReadLocks s =
      ({ s with
          readCount := s.readCount + (s.waiting.filter (fun l => l.type = LockType.read)).length,
          waiting := s.waiting.filter (fun l => l.type = LockType.write) },
       s.waiting.filter (fun l => l.type = LockType.read)) := by
  simp [rwActivateReadLocks, hf, rwActivateReadStep_foldl]

theorem rwActivateReadLocks_writeCount (s : RWState) :
    (rwActivateReadLocks s).1.writeCount = s.writeCount := by
  by_cases hf : s.fair = true
  · rw [rwActivateReadLocks_fair s hf]
  · rw [rwActivateReadLocks_nonfair s (by simpa using hf)]

theorem rwActivateReadLocks_readCount_ge (s : RWState) :
    s.readCount ≤ (rwActivateReadLocks s).1.readCount := by
  by_cases hf : s.fair = true
  · rw [rwActivateReadLocks_fair s hf]
    simp
  · rw [rwActivateReadLocks_nonfair s (by simpa using hf)]
    simp

theorem rwActivateReadLocks_inv (s : RWState) (hr : 0 ≤ s.readCount) (hw : s.writeCount = 0) :
    RWInvA (rwActivateReadLocks s).1 := by
  have h1 := rwActivateReadLocks_readCount_ge s
  have h2 := rwActivateReadLocks_writeCount s
  simp only [RWInvA]
  exact ⟨by omega, Or.inl (by omega), fun _ => by omega⟩

/-- Written from the spec's release-and-wake wording (the refinement target
for C3): pop the head waiter and complete it; after a read head, fair mode
additionally activates the consecutive read waiters at the head, while
non-fair mode activates every read waiter of the queue, keeping write waiters
in order; after a write head nothing further is activated.  The state starts
from read 0 / write 0 (both counts had just reached zero). -/
def readWakeSubPolicy (fair : Bool) (w : LockWaiter) (rest : List LockWaiter) :
    RWState × List LockWaiter :=
  match w.type with
  | .write => ({ readCount := 0, writeCount := 1, waiting := rest, fair := fair }, [w])
  | .read =>
    if fair then
      ({ readCount := 1 + (rest.takeWhile (fun l => l.type = LockType.read)).length,
         writeCount := 0, waiting := rest.dropWhile (fun l => l.type = LockType.read),
         fair := fair }, w :: rest.takeWhile (fun l => l.type = LockType.read))
    else
      ({ readCount := 1 + (rest.filter (fun l => l.type = LockType.read)).length,
         writeCount := 0, waiting := rest.filter (fun l => l.type = LockType.write),
         fair := fair }, w :: rest.filter (fun l => l.type = LockType.read))

theorem rwActivateLocks_head (rest : List LockWaiter) (f : Bool) (w : LockWaiter) :
    rwActivateLocks ⟨0, 0, w :: rest, f⟩ = readWakeSubPolicy f w rest := by
  obtain ⟨wid, wt, wtd⟩ := w
  cases wt with
  | read =>
    cases f with
    | true =>
      rw [rwActivateLocks]
      simp only []
      rw [rwActivateReadLocks_fair _ rfl]
      simp [readWakeSubPolicy]
    | false =>
      rw [rwActivateLocks]
      simp only []
      rw [rwActivateReadLocks_nonfair _ rfl]
      simp [readWakeSubPolicy]
  | write => simp [rwActivateLocks, readWakeSubPolicy]

theorem readWakeSubPolicy_inv (f : Bool) (w : LockWaiter) (rest : List LockWaiter) :
    RWInvA (readWakeSubPolicy f w rest).1 := by
  obtain ⟨wid, wt, wtd⟩ := w
  cases wt with
  | read => cases f <;> simp [readWakeSubPolicy, RWInvA] <;> omega
  | write => simp [readWakeSubPolicy, RWInvA]

theorem rwActivateLocks_inv (wait : List LockWaiter) (f : Bool) :
    RWInvA (rwActivateLocks ⟨0, 0, wait, f⟩).1 := by
  cases wait with
  | nil => simp [rwActivateLocks, RWInvA]
  | cons w rest =>
    rw [rwActivateLocks_head]
    exact readWakeSubPolicy_inv f w rest

theorem rwInvA_releaseRead {s : RWState} (h : RWInvA s) (hr : 0 < s.readCount) :
    RWInvA (rwReleaseReadLock s).1 := by
  simp only [RWInvA] at h
  have hw : s.writeCount = 0 := h.2.2 hr
  obtain ⟨r, wcnt, wait, f⟩ := s
  simp only at h hr hw
  subst hw
  rw [rwReleaseReadLock]
  simp only []
  by_cases h0 : r - 1 = 0
  · rw [if_pos h0, h0]
    exact rwActivateLocks_inv wait f
  · rw [if_neg h0]
    simp only [RWInvA]
    exact ⟨by omega, by simp, by simp⟩

theorem rwInvA_releaseWrite {s : RWState} (h : RWInvA s) (hw : 0 < s.writeCount) :
    RWInvA (rwReleaseWriteLock s).1 := by
  simp only [RWInvA] at h
  have hw1 : s.writeCount = 1 := by rcases h.2.1 with h1 | h1 <;> omega
  have hr0 : s.readCount = 0 := by
    by_contra hc
    have := h.2.2 (by omega)
    omega
  obtain ⟨r, wcnt, wait, f⟩ := s
  simp only at h hw hw1 hr0
  subst hw1
  subst hr0
  rw [rwReleaseWriteLock]
  simp only []
  rw [if_pos (by decide : (1 : Int) - 1 = 0)]
  rw [show ((1 : Int) - 1) = 0 by decide]
  exact rwActivateLocks_inv wait f

theorem rwInvA_downgrade {s : RWState} (h : RWInvA s) (hw : 0 < s.writeCount) :
    RWInvA (rwDowngradeToReadLock s).1 := by
  simp only [RWInvA] at h
  have hw1 : s.writeCount = 1 := by rcases h.2.1 with h1 | h1 <;> omega
  have hr0 : s.readCount = 0 := by
    by_contra hc
    have := h.2.2 (by omega)
    omega
  rw [rwDowngradeToReadLock]
  simp only []
  exact rwActivateReadLocks_inv _ (by simp only []; omega) (by simp only []; omega)

theorem rwAcquireLock_counts (s : RWState) (t : LockType) (timeout : Option Int) (id : Nat) :
    (rwAcquireLock s t timeout id).2.readCount = s.readCount ∧
      (rwAcquireLock s t timeout id).2.writeCount = s.writeCount := by
  cases timeout with
  | none => exact ⟨rfl, rfl⟩
  | some tm =>
    rw [rwAcquireLock]
    by_cases h : tm ≤ 0
    · rw [if_pos h]
      exact ⟨rfl, rfl⟩
    · rw [if_neg h]
      exact ⟨rfl, rfl⟩

theorem rwInvA_acquireRead {s : RWState} (timeout : Option Int) (id : Nat) (h : RWInvA s) :
    RWInvA (rwAcquireReadLock s timeout id).2 := by
  simp only [RWInvA] at h
  rw [rwAcquireReadLock]
  by_cases hc : (0 < s.readCount ∧ s.fair = false) ∨ (¬0 < s.writeCount ∧ s.waiting = [])
  · rw [if_pos hc]
    have hw0 : s.writeCount = 0 := by
      rcases hc with ⟨hr, _⟩ | ⟨hnw, _⟩
      · exact h.2.2 hr
      · omega
    simp only [RWInvA]
    exact ⟨by omega, Or.inl hw0, fun _ => hw0⟩
  · rw [if_neg hc]
    have hcounts := rwAcquireLock_counts s .read timeout id
    rcases hq : rwAcquireLock s .read timeout id with ⟨o, s'⟩
    rw [hq] at hcounts
    simp only at hcounts
    cases o with
    | queued timed =>
      simp only [RWInvA]
      exact ⟨by omega, by omega, fun _ => by omega⟩
    | rejectedTimeout m =>
      simp only [RWInvA]
      exact ⟨by omega, by omega, fun _ => by omega⟩

theorem rwInvA_acquireWrite {s : RWState} (timeout : Option Int) (id : Nat) (h : RWInvA s) :
    RWInvA (rwAcquireWriteLock s timeout id).2 := by
  simp only [RWInvA] at h
  rw [rwAcquireWriteLock]
  by_cases hc : s.readCount = 0 ∧ s.writeCount = 0
  · rw [if_pos hc]
    simp only [RWInvA]
    exact ⟨by omega, by omega, fun _ => by omega⟩
  · rw [if_neg hc]
    have hcounts := rwAcquireLock_counts s .write timeout id
    rcases hq : rwAcquireLock s .write timeout id with ⟨o, s'⟩
    rw [hq] at hcounts
    simp only at hcounts
    cases o with
    | queued timed =>
      simp only [RWInvA]
      exact ⟨by omega, by omega, fun _ => by omega⟩
    | rejectedTimeout m =>
      simp only [RWInvA]
      exact ⟨by omega, by omega, fun _ => by omega⟩

theorem rwInvA_timerFire {s : RWState} (w : LockWaiter) (h : RWInvA s) :
    RWInvA (rwTimerFire s w) := by
  simp only [RWInvA] at h ⊢
  exact h

/-- Claim C4: in every reachable state of the read/write lock — under any
sequence of acquisitions, releases, upgrades, downgrades, timeout firings and
the waiter activations they trigger — it is never the case that both a read
and a write lock are held, and the write count is always 0 or 1. -/
theorem rw_counts_invariant_C4 :
    ∀ s : RWState, RWReachable s →
      ¬(0 < s.readCount ∧ 0 < s.writeCount) ∧ (s.writeCount = 0 ∨ s.writeCount = 1) := by
  intro s hs
  have h : RWInvA s := by
    induction hs with
    | init fair => simp [RWInvA]
    | acquireRead s timeout id _ ih => exact rwInvA_acquireRead timeout id ih
    | acquireWrite s timeout id _ ih => exact rwInvA_acquireWrite timeout id ih
    | releaseRead s _ hr ih => exact rwInvA_releaseRead ih hr
    | releaseWrite s _ hw ih => exact rwInvA_releaseWrite ih hw
    | downgrade s _ hw ih => exact rwInvA_downgrade ih hw
    | upgrade s timeout id _ hr ih =>
      exact rwInvA_acquireWrite timeout id (rwInvA_releaseRead ih hr)
    | timerFire s w _ ih => exact rwInvA_timerFire w ih
  simp only [RWInvA] at h
  exact ⟨fun hc => by have := h.2.2 hc.1; omega, h.2.1⟩

/-- Witness for C4 at the reachable state produced by an immediate read grant
followed by an upgrade to a write lock. -/
theorem rw_counts_invariant_C4_witness :
    ¬(0 < (rwAcquireWriteLock
            (rwReleaseReadLock (rwAcquireReadLock ⟨0, 0, [], true⟩ none 0).2).1 none 1).2.readCount
      ∧ 0 < (rwAcquireWriteLock
            (rwReleaseReadLock (rwAcquireReadLock ⟨0, 0, [], true⟩ none 0).2).1 none 1).2.writeCount)
    ∧ ((rwAcquireWriteLock
          (rwReleaseReadLock (rwAcquireReadLock ⟨0, 0, [], true⟩ none 0).2).1 none 1).2.writeCount = 0
        ∨ (rwAcquireWriteLock
          (rwReleaseReadLock (rwAcquireReadLock ⟨0, 0, [], true⟩ none 0).2).1 none 1).2.writeCount = 1) :=
  rw_counts_invariant_C4 _
    (RWReachable.upgrade _ none 1 (RWReachable.acquireRead _ none 0 (RWReachable.init true))
      (by decide))

/-- Claim C3: when a release makes both counts zero while the queue is
non-empty — releasing the last read lock with no writer, or the write lock
with no readers — the head waiter is popped, its count incremented and its
completion resolved; a read head additionally activates read waiters per the
fairness mode (fair: consecutive reads from the head up to the first write
waiter; non-fair: every read waiter in the queue, write waiters keeping their
relative order), while a write head activates nothing further. -/
theorem rw_release_wake_C3 :
    ∀ (s : RWState) (w : LockWaiter) (rest : List LockWaiter),
      s.waiting = w :: rest →
      (s.readCount = 1 → s.writeCount = 0 →
        rwReleaseReadLock s = readWakeSubPolicy s.fair w rest)
      ∧ (s.writeCount = 1 → s.readCount = 0 →
        rwReleaseWriteLock s = readWakeSubPolicy s.fair w rest) := by
  intro s w rest hq
  obtain ⟨r, wcnt, wait, f⟩ := s
  simp only at hq
  subst hq
  constructor
  · intro hr hw
    simp only at hr hw
    subst hr
    subst hw
    rw [rwReleaseReadLock]
    simp only []
    rw [if_pos (by decide : (1 : Int) - 1 = 0)]
    rw [show ((1 : Int) - 1) = 0 by decide]
    exact rwActivateLocks_head rest f w
  · intro hw hr
    simp only at hr hw
    subst hr
    subst hw
    rw [rwReleaseWriteLock]
    simp only []
    rw [if_pos (by decide : (1 : Int) - 1 = 0)]
    rw [show ((1 : Int) - 1) = 0 by decide]
    exact rwActivateLocks_head rest f w

/-- Witness for C3: one reader releasing with a fair queue of two read
waiters in front of a write waiter. -/
theorem rw_release_wake_C3_witness :
    rwReleaseReadLock
        ⟨1, 0, [⟨1, .read, false⟩, ⟨2, .read, false⟩, ⟨3, .write, false⟩], true⟩ =
      readWakeSubPolicy true ⟨1, .read, false⟩ [⟨2, .read, false⟩, ⟨3, .write, false⟩] :=
  (rw_release_wake_C3 ⟨1, 0, [⟨1, .read, false⟩, ⟨2, .read, false⟩, ⟨3, .write, false⟩], true⟩
      ⟨1, .read, false⟩ [⟨2, .read, false⟩, ⟨3, .write, false⟩] rfl).1 rfl rfl

/-- Claim C10: on a fair lock with at least one read lock held, no write lock
held and an empty waiter queue, `acquireReadLock` resolves immediately with a
fresh held read handle and increments the read count. -/
theorem rw_fair_active_reader_grant_C10 :
    ∀ (s : RWState) (timeout : Option Int) (id : Nat),
      s.fair = true → 0 < s.readCount → s.writeCount = 0 → s.waiting = [] →
      rwAcquireReadLock s timeout id =
        (.granted newReadLockHandle, { s with readCount := s.readCount + 1 })
      ∧ newReadLockHandle.held = true := by
  intro s timeout id hf hr hw hq
  refine ⟨?_, rfl⟩
  rw [rwAcquireReadLock, if_pos (Or.inr ⟨by omega, hq⟩)]

/-- Witness for C10: a fair lock with three active readers and an empty queue. -/
theorem rw_fair_active_reader_grant_C10_witness :
    rwAcquireReadLock ⟨3, 0, [], true⟩ (some 50) 7 =
      (.granted newReadLockHandle, ⟨4, 0, [], true⟩)
    ∧ newReadLockHandle.held = true := by
  have h := rw_fair_active_reader_grant_C10 ⟨3, 0, [], true⟩ (some 50) 7 rfl (by decide) rfl rfl
  exact ⟨by simpa using h.1, h.2⟩

/-- Claim C5: `upgradeToWriteLock` on a handle that is no longer held fails
synchronously with "Read lock is no longer held"; on a held handle it first
releases the read lock (handle not held, read count decremented, queued
waiters possibly activated) and only then requests a write lock with the given
timeout — the result is exactly the composition of the release with
`acquireWriteLock` on the released state.  A later timeout firing removes only
the queued waiter and changes neither count, so the original read lock is not
restored (concretely: with one reader and one queued writer, upgrading with
timeout 50 activates the writer, queues the upgrader, and the subsequent timer
firing leaves the read count at 0). -/
theorem rw_upgrade_semantics_C5 :
    ∀ (h : ReadLockHandle) (s : RWState) (timeout : Option Int) (id : Nat),
      (h.held = false →
        readLockUpgradeToWriteLock h s timeout id = .error "Read lock is no longer held")
      ∧ (h.held = true →
        readLockUpgradeToWriteLock h s timeout id =
          .ok (⟨false⟩,
            (rwAcquireWriteLock (rwReleaseReadLock s).1 timeout id).1,
            (rwAcquireWriteLock (rwReleaseReadLock s).1 timeout id).2,
            (rwReleaseReadLock s).2))
      ∧ (∀ (s' : RWState) (wtr : LockWaiter),
          (rwTimerFire s' wtr).readCount = s'.readCount
          ∧ (rwTimerFire s' wtr).writeCount = s'.writeCount)
      ∧ readLockUpgradeToWriteLock ⟨true⟩ ⟨1, 0, [⟨9, .write, false⟩], true⟩ (some 50) 1 =
          .ok (⟨false⟩, .queued true, ⟨0, 1, [⟨1, .write, true⟩], true⟩, [⟨9, .write, false⟩])
      ∧ rwTimerFire ⟨0, 1, [⟨1, .write, true⟩], true⟩ ⟨1, .write, true⟩ = ⟨0, 1, [], true⟩ := by
  intro h s timeout id
  refine ⟨?_, ?_, fun s' wtr => ⟨rfl, rfl⟩, by rfl, by rfl⟩
  · intro hh
    rw [readLockUpgradeToWriteLock, readLockRelease, if_pos hh]
  · intro hh
    rw [readLockUpgradeToWriteLock, readLockRelease, if_neg (by rw [hh]; simp)]

/-- Witness for C5: the error case on a released handle and the composition on
a held handle over a concrete state. -/
theorem rw_upgrade_semantics_C5_witness :
    readLockUpgradeToWriteLock ⟨false⟩ ⟨1, 0, [], true⟩ none 0 =
      .error "Read lock is no longer held"
    ∧ readLockUpgradeToWriteLock ⟨true⟩ ⟨1, 0, [], true⟩ none 0 =
      .ok (⟨false⟩,
        (rwAcquireWriteLock (rwReleaseReadLock ⟨1, 0, [], true⟩).1 none 0).1,
        (rwAcquireWriteLock (rwReleaseReadLock ⟨1, 0, [], true⟩).1 none 0).2,
        (rwReleaseReadLock ⟨1, 0, [], true⟩).2) :=
  ⟨(rw_upgrade_semantics_C5 ⟨false⟩ ⟨1, 0, [], true⟩ none 0).1 rfl,
   (rw_upgrade_semantics_C5 ⟨true⟩ ⟨1, 0, [], true⟩ none 0).2.1 rfl⟩
/-! ## ConcurrentMap (src/ConcurrentMap.ts)

State: `#current : Map<K, V>` (insertion-ordered, embedded as an association
list) and `#pending : Map<K, Callback[]>`.  Queued callbacks are
defunctionalised into `MapCont` values: each closure pushed by the source is
one of a fixed set of shapes.  A user computation (`fn` of `compute`,
`computeIfAbsent`, `computeIfPresent`, `merge`) runs asynchronously: starting
it adds a `MapAction` to the `inflight` list (the promise chain
`Promise.resolve().then(fn).then(apply).catch(reject).finally(trigger)` has
been created but not yet settled), and the external event "the user function
settles with a value / `undefined` / an error" is `mapCompleteAction`, which
applies the chain's `.then`/`.catch` stage and then runs
`#triggerNextPending`.  Promise resolutions are recorded in the append-only
`results` log; `clears` tracks, per `clear()` call, how many per-key tail
deletions are still outstanding (the `Promise.all` bookkeeping).  `undefined`
is `Option.none` throughout. -/

/-- Association-list lookup with JS `Map.get` semantics. -/
def alGet {K A : Type} [DecidableEq K] : List (K × A) → K → Option A
  | [], _ => none
  | (k', a) :: rest, k => if k' = k then some a else alGet rest k

/-- Association-list update with JS `Map.set` semantics: an existing key keeps
its position, a new key is appended. -/
def alSet {K A : Type} [DecidableEq K] : List (K × A) → K → A → List (K × A)
  | [], k, a => [(k, a)]
  | (k', a') :: rest, k, a => if k' = k then (k', a) :: rest else (k', a') :: alSet rest k a

/-- Association-list removal with JS `Map.delete` semantics. -/
def alErase {K A : Type} [DecidableEq K] : List (K × A) → K → List (K × A)
  | [], _ => []
  | (k', a') :: rest, k => if k' = k then rest else (k', a') :: alErase rest k

/-- The defunctionalised callbacks pushed onto a `#pending` queue. -/
inductive MapCont (V : Type) where
  | compute (rid : Nat)
  | computeIfAbsent (rid : Nat)
  | computeIfPresent (rid : Nat)
  | merge (rid : Nat) (value : V)
  | clearTail (rid : Nat)
deriving DecidableEq

/-- Which of the four private completion helpers an in-flight user computation
belongs to (`#compute`, `#computeWhenAbsent`, `#computeWhenPresent`,
`#merge`); they differ in how an `undefined` result is applied. -/
inductive ActionKind where
  | compute
  | whenAbsent
  | whenPresent
  | mergeFn
deriving DecidableEq

/-- An in-flight user computation: its promise chain exists but has not yet
settled. -/
structure MapAction (K : Type) where
  rid : Nat
  key : K
  kind : ActionKind
deriving DecidableEq

/-- A recorded promise resolution: `val v` for `resolve(v)` (`none` =
`undefined`), `err e` for `reject(e)`, `cleared` for a resolved `clear()`. -/
inductive MapRes (V E : Type) where
  | val (v : Option V)
  | err (e : E)
  | cleared
deriving DecidableEq

/-- The map's state (`#current`, `#pending`) plus the in-flight actions and
the promise-resolution bookkeeping. -/
structure MapState (K V E : Type) where
  current : List (K × V)
  pending : List (K × List (MapCont V))
  inflight : List (MapAction K)
  results : List (Nat × MapRes V E)
  clears : List (Nat × Nat)
deriving DecidableEq

/-- Record a promise resolution. -/
def pushRes {K V E : Type} (st : MapState K V E) (rid : Nat) (o : MapRes V E) :
    MapState K V E :=
  { st with results := st.results ++ [(rid, o)] }

/-- Source translation of the tail callback `clear()` pushes onto each pending
queue: delete the key from `#current`, resolve this key's part of the
`Promise.all` (decrementing the outstanding counter; the last part resolves
the `clear()` promise).  The subsequent `#triggerNextPending` call is made by
the invoking context. -/
def runClearTail {K V E : Type} [DecidableEq K] (st : MapState K V E) (k : K) (rid : Nat) :
    MapState K V E :=
  let st1 := { st with current := alErase st.current k }
  match alGet st.clears rid with
  | none => st1
  | some n =>
    if n - 1 = 0 then
      { st1 with clears := alErase st.clears rid,
                 results := st1.results ++ [(rid, .cleared)] }
    else { st1 with clears := alSet st.clears rid (n - 1) }

/-- Source translation of `#triggerNextPending(key)`: shift the head of
`pending[key]` and invoke it if present; afterwards, if the (aliased) queue
for `key` still exists and is empty, delete the `pending` entry.  Invoking
the shifted callback is inlined (the source closures, defunctionalised):
`compute` continuations start `#compute` (the chain goes in flight, no nested
trigger); `computeIfAbsent` / `computeIfPresent` / `merge` continuations
re-check `#current` and either settle synchronously and call
`#triggerNextPending` again, or start their computation; `clearTail`
callbacks run `runClearTail` and call `#triggerNextPending` again.  The
`fuel` bounds the synchronous nesting depth (in the source it is bounded by
the queue length). -/
def triggerNext {K V E : Type} [DecidableEq K] (fuel : Nat) (k : K) (st : MapState K V E) :
    MapState K V E :=
  match fuel with
  | 0 => st
  | f + 1 =>
    match alGet st.pending k with
    | none => st
    | some [] => { st with pending := alErase st.pending k }
    | some (c :: rest) =>
      let st1 := { st with pending := alSet st.pending k rest }
      let st2 :=
        match c with
        | .compute rid => { st1 with inflight := st1.inflight ++ [⟨rid, k, .compute⟩] }
        | .computeIfAbsent rid =>
          match alGet st1.current k with
          | some v => triggerNext f k (pushRes st1 rid (.val (some v)))
          | none => { st1 with inflight := st1.inflight ++ [⟨rid, k, .whenAbsent⟩] }
        | .computeIfPresent rid =>
          match alGet st1.current k with
          | none => triggerNext f k (pushRes st1 rid (.val none))
          | some _ => { st1 with inflight := st1.inflight ++ [⟨rid, k, .whenPresent⟩] }
        | .merge rid v =>
          match alGet st1.current k with
          | none =>
            triggerNext f k
              (pushRes { st1 with current := alSet st1.current k v } rid (.val (some v)))
          | some _ => { st1 with inflight := st1.inflight ++ [⟨rid, k, .mergeFn⟩] }
        | .clearTail rid => triggerNext f k (runClearTail st1 k rid)
      match alGet st2.pending k with
      | some [] => { st2 with pending := alErase st2.pending k }
      | _ => st2

/-- Source translation of `ConcurrentMap.compute(key, fn)` (the synchronous
part): on an idle key, mark it busy (`pending.set(key, [])`) and start
`#compute`; on a busy key, push a continuation. -/
def mapCompute {K V E : Type} [DecidableEq K] (st : MapState K V E) (k : K) (rid : Nat) :
    MapState K V E :=
  match alGet st.pending k with
  | none =>
    { st with pending := alSet st.pending k [],
              inflight := st.inflight ++ [⟨rid, k, .compute⟩] }
  | some q => { st with pending := alSet st.pending k (q ++ [.compute rid]) }

/-- Source translation of `ConcurrentMap.computeIfAbsent(key, fn)` (the
synchronous part). -/
def mapComputeIfAbsent {K V E : Type} [DecidableEq K] (st : MapState K V E) (k : K)
    (rid : Nat) : MapState K V E :=
  match alGet st.pending k with
  | none =>
    match alGet st.current k with
    | some v => pushRes st rid (.val (some v))
    | none =>
      { st with pending := alSet st.pending k [],
                inflight := st.inflight ++ [⟨rid, k, .whenAbsent⟩] }
  | some q => { st with pending := alSet st.pending k (q ++ [.computeIfAbsent rid]) }

/-- Source translation of `ConcurrentMap.computeIfPresent(key, fn)` (the
synchronous part). -/
def mapComputeIfPresent {K V E : Type} [DecidableEq K] (st : MapState K V E) (k : K)
    (rid : Nat) : MapState K V E :=
  match alGet st.pending k with
  | none =>
    match alGet st.current k with
    | none => pushRes st rid (.val none)
    | some _ =>
      { st with pending := alSet st.pending k [],
                inflight := st.inflight ++ [⟨rid, k, .whenPresent⟩] }
  | some q => { st with pending := alSet st.pending k (q ++ [.computeIfPresent rid]) }

/-- Source translation of `ConcurrentMap.merge(key, value, fn)` (the
synchronous part): on an idle absent key, set the value and resolve
immediately without invoking `fn`. -/
def mapMerge {K V E : Type} [DecidableEq K] (st : MapState K V E) (k : K) (v : V)
    (rid : Nat) : MapState K V E :=
  match alGet st.pending k with
  | none =>
    match alGet st.current k with
    | none => pushRes { st with current := alSet st.current k v } rid (.val (some v))
    | some _ =>
      { st with pending := alSet st.pending k [],
                inflight := st.inflight ++ [⟨rid, k, .mergeFn⟩] }
  | some q => { st with pending := alSet st.pending k (q ++ [.merge rid v]) }

/-- Source translation of `ConcurrentMap.clear()`: delete every key of
`#current` that has no pending queue; push a `clearTail` callback onto every
pending queue; the returned promise is the `Promise.all` over the pushed
tails — resolved immediately when there are none, otherwise when the last
tail has run. -/
def mapClear {K V E : Type} [DecidableEq K] (st : MapState K V E) (rid : Nat) :
    MapState K V E :=
  let cur1 := st.current.filter (fun e => (alGet st.pending e.1).isSome)
  let pend1 := st.pending.map (fun e => (e.1, e.2 ++ [MapCont.clearTail rid]))
  let st1 := { st with current := cur1, pending := pend1 }
  if st.pending.isEmpty then pushRes st1 rid .cleared
  else { st1 with clears := st1.clears ++ [(rid, st.pending.length)] }

/-- Source translation of the settled promise chain of a user computation:
the `.then` stage applies the produced value to `#current` (`undefined`
deletes for `#compute` / `#computeWhenPresent` / `#merge`, is a no-op for
`#computeWhenAbsent`; a value is set) and resolves; the `.catch` stage leaves
`#current` untouched and rejects with the error. -/
def applyOutcome {K V E : Type} [DecidableEq K] (kind : ActionKind) (k : K)
    (outcome : Except E (Option V)) (cur : List (K × V)) : List (K × V) × MapRes V E :=
  match outcome with
  | .error e => (cur, .err e)
  | .ok v =>
    match kind, v with
    | .whenAbsent, some w => (alSet cur k w, .val (some w))
    | .whenAbsent, none => (cur, .val none)
    | _, some w => (alSet cur k w, .val (some w))
    | _, none => (alErase cur k, .val none)

/-- The external event "the user computation with result id `rid` settles
with `outcome`": apply the chain's `.then`/`.catch` stage, remove the action
from flight, then run the `.finally` stage `#triggerNextPending(key)`. -/
def mapCompleteAction {K V E : Type} [DecidableEq K] (fuel : Nat) (st : MapState K V E)
    (rid : Nat) (outcome : Except E (Option V)) : MapState K V E :=
  match st.inflight.find? (fun a => a.rid = rid) with
  | none => st
  | some a =>
    let r := applyOutcome a.kind a.key outcome st.current
    let st1 :=
      { st with
          current := r.1,
          inflight := st.inflight.filter (fun x => x.rid ≠ rid),
          results := st.results ++ [(rid, r.2)] }
    triggerNext fuel a.key st1

/-- The number of actions for key `k` that have started but not completed. -/
def inflightCount {K V E : Type} [DecidableEq K] (st : MapState K V E) (k : K) : Nat :=
  (st.inflight.filter (fun a => a.key = k)).length

/-- Claim C1 is violated by the code (code-bug evidence): run the trace
`compute(0, f1); compute(0, f2); f1 settles; compute(0, f3)` where f2's
computation is still unsettled when f3 arrives.  When f1's completion shifts
f2's queued continuation and starts it, `#triggerNextPending` sees the
emptied queue and deletes `pending[0]` even though f2's action has only
started, not completed (first two conjuncts); the third `compute` therefore
finds the key idle and starts a second concurrent action, so two actions for
key 0 are in flight at once (third conjunct), contradicting the claimed
at-most-one-in-flight invariant and the claim that `pending[k]` is removed
only when the last queued continuation has completed. -/
theorem map_single_flight_violation_C1 :
    (mapCompleteAction 4
        (mapCompute (mapCompute (⟨[], [], [], [], []⟩ : MapState Nat Nat Nat) 0 1) 0 2)
        1 (Except.ok (some 7))).inflight = [⟨2, 0, .compute⟩]
    ∧ (mapCompleteAction 4
        (mapCompute (mapCompute (⟨[], [], [], [], []⟩ : MapState Nat Nat Nat) 0 1) 0 2)
        1 (Except.ok (some 7))).pending = []
    ∧ inflightCount
        (mapCompute (mapCompleteAction 4
          (mapCompute (mapCompute (⟨[], [], [], [], []⟩ : MapState Nat Nat Nat) 0 1) 0 2)
          1 (Except.ok (some 7))) 0 3) 0 = 2 := by decide

/-- Claim C7: for every compute-family action (`#compute`,
`#computeWhenAbsent`, `#computeWhenPresent`, `#merge`), a failing user
function leaves `#current` exactly as it was and rejects the returned promise
with that error: the `.catch` stage records the rejection without touching
the map (first conjunct, over every action kind and every map content), and
the full completion event — when the key has no further queued continuation —
preserves `#current` verbatim while appending exactly the rejection to the
results (second conjunct). -/
theorem map_user_failure_C7 :
    (∀ (K V E : Type) [DecidableEq K] (kind : ActionKind) (k : K) (e : E)
        (cur : List (K × V)),
        applyOutcome kind k (Except.error e) cur = (cur, .err e))
    ∧ (∀ (K V E : Type) [DecidableEq K] (fuel : Nat) (st : MapState K V E)
        (a : MapAction K) (e : E),
        st.inflight.find? (fun x => x.rid = a.rid) = some a →
        alGet st.pending a.key = some [] →
        (mapCompleteAction fuel st a.rid (Except.error e)).current = st.current
        ∧ (mapCompleteAction fuel st a.rid (Except.error e)).results
            = st.results ++ [(a.rid, .err e)]) := by
  constructor
  · intro K V E instK kind k e cur
    rfl
  · intro K V E instK fuel st a e hfind hq
    cases fuel with
    | zero =>
      simp only [mapCompleteAction, hfind, applyOutcome, triggerNext]
      exact ⟨trivial, trivial⟩
    | succ f =>
      simp only [mapCompleteAction, hfind, applyOutcome, triggerNext, hq]
      exact ⟨trivial, trivial⟩

/-- Witness for C7: a failing compute on a key holding 5 rejects with the
error and leaves the entry untouched. -/
theorem map_user_failure_C7_witness :
    (mapCompleteAction 3
        (⟨[(0, 5)], [(0, [])], [⟨1, 0, .compute⟩], [], []⟩ : MapState Nat Nat Nat)
        1 (Except.error 99)).current =
      (⟨[(0, 5)], [(0, [])], [⟨1, 0, .compute⟩], [], []⟩ : MapState Nat Nat Nat).current
    ∧ (mapCompleteAction 3
        (⟨[(0, 5)], [(0, [])], [⟨1, 0, .compute⟩], [], []⟩ : MapState Nat Nat Nat)
        1 (Except.error 99)).results =
      (⟨[(0, 5)], [(0, [])], [⟨1, 0, .compute⟩], [], []⟩ : MapState Nat Nat Nat).results
        ++ [((⟨1, 0, .compute⟩ : MapAction Nat).rid, .err 99)] :=
  map_user_failure_C7.2 Nat Nat Nat 3
    ⟨[(0, 5)], [(0, [])], [⟨1, 0, .compute⟩], [], []⟩ ⟨1, 0, .compute⟩ 99
    (by decide) (by decide)

/-- Claim C8 as stated is false on the code: `clear()` appends a tail
deletion for every key with a pending queue, not only the keys currently in
`#current`.  Concretely: key 0 has an in-flight `compute` but no entry when
`clear()` is called (first two conjuncts); `clear()` nevertheless appends a
tail deletion for it (third conjunct); the completing action then adds the
entry `0 ↦ 7` — after the `clear()` call — (fourth conjunct), and clear's
tail action deletes it, leaving the final map empty (fifth conjunct) while
both the compute and the clear resolve (sixth conjunct).  So an entry added
after the `clear()` call is deleted by it. -/
theorem map_clear_counterexample_C8 :
    (mapCompute (⟨[], [], [], [], []⟩ : MapState Nat Nat Nat) 0 1).current = []
    ∧ (mapCompute (⟨[], [], [], [], []⟩ : MapState Nat Nat Nat) 0 1).inflight
        = [⟨1, 0, .compute⟩]
    ∧ (mapClear (mapCompute (⟨[], [], [], [], []⟩ : MapState Nat Nat Nat) 0 1) 2).pending
        = [(0, [.clearTail 2])]
    ∧ applyOutcome (E := Nat) ActionKind.compute 0 (Except.ok (some 7))
        (mapClear (mapCompute (⟨[], [], [], [], []⟩ : MapState Nat Nat Nat) 0 1) 2).current
        = ([(0, 7)], .val (some 7))
    ∧ (mapCompleteAction 4
        (mapClear (mapCompute (⟨[], [], [], [], []⟩ : MapState Nat Nat Nat) 0 1) 2)
        1 (Except.ok (some 7))).current = []
    ∧ (mapCompleteAction 4
        (mapClear (mapCompute (⟨[], [], [], [], []⟩ : MapState Nat Nat Nat) 0 1) 2)
        1 (Except.ok (some 7))).results = [(1, .val (some 7)), (2, .cleared)] := by
  decide

/-- Claim C8 as amended: `clear()` immediately deletes exactly the keys of
`#current` with no pending actions, and appends exactly one tail deleting
action to the queue of every key that has pending actions — whether or not
that key currently has an entry (so an entry created for such a key by an
action in flight at `clear()` time is deleted when its tail runs).  The
returned promise resolves immediately when no key is pending, and otherwise
only after all tail deletions have run: each tail deletes its key and
decrements the outstanding counter, and only the last one resolves the
promise. -/
theorem map_clear_semantics_C8 :
    ∀ (K V E : Type) [DecidableEq K] (st : MapState K V E) (rid : Nat),
      (mapClear st rid).current = st.current.filter (fun e => (alGet st.pending e.1).isSome)
      ∧ (mapClear st rid).pending
          = st.pending.map (fun e => (e.1, e.2 ++ [MapCont.clearTail rid]))
      ∧ (st.pending = [] →
          (mapClear st rid).results = st.results ++ [(rid, .cleared)]
          ∧ (mapClear st rid).clears = st.clears)
      ∧ (st.pending ≠ [] →
          (mapClear st rid).results = st.results
          ∧ (mapClear st rid).clears = st.clears ++ [(rid, st.pending.length)])
      ∧ (∀ (k : K) (n : Nat), alGet st.clears rid = some n → 2 ≤ n →
          runClearTail st k rid =
            { st with current := alErase st.current k,
                      clears := alSet st.clears rid (n - 1) })
      ∧ (∀ k : K, alGet st.clears rid = some 1 →
          runClearTail st k rid =
            { st with current := alErase st.current k,
                      clears := alErase st.clears rid,
                      results := st.results ++ [(rid, .cleared)] }) := by
  intro K V E instK st rid
  by_cases hp : st.pending.isEmpty
  · have hp' : st.pending = [] := List.isEmpty_iff.mp hp
    refine ⟨by simp [mapClear, pushRes, hp], by simp [mapClear, pushRes, hp], ?_, ?_, ?_, ?_⟩
    · intro _
      exact ⟨by simp [mapClear, pushRes, hp], by simp [mapClear, pushRes, hp]⟩
    · intro hne
      exact absurd hp' hne
    · intro k n hn h2
      have hne : ¬(n - 1 = 0) := by omega
      simp [runClearTail, hn, hne]
    · intro k hn
      simp [runClearTail, hn]
  · have hp' : st.pending ≠ [] := by
      intro hc
      exact hp (by simp [hc])
    refine ⟨by simp [mapClear, pushRes, hp], by simp [mapClear, pushRes, hp], ?_, ?_, ?_, ?_⟩
    · intro he
      exact absurd he hp'
    · intro _
      exact ⟨by simp [mapClear, pushRes, hp], by simp [mapClear, pushRes, hp]⟩
    · intro k n hn h2
      have hne : ¬(n - 1 = 0) := by omega
      simp [runClearTail, hn, hne]
    · intro k hn
      simp [runClearTail, hn]

/-- Witness for amended C8 at a map holding `{0 ↦ 0, 1 ↦ 2}` with key 1 busy:
key 0 is deleted immediately, key 1 gets a tail deletion, and the clear
promise is armed with one outstanding tail. -/
theorem map_clear_semantics_C8_witness :
    (mapClear (⟨[(0, 0), (1, 2)], [(1, [])], [⟨1, 1, .compute⟩], [], []⟩ : MapState Nat Nat Nat)
        9).current =
      ([(0, 0), (1, 2)].filter
        (fun e => (alGet ([(1, [])] : List (Nat × List (MapCont Nat))) e.1).isSome))
    ∧ (mapClear (⟨[(0, 0), (1, 2)], [(1, [])], [⟨1, 1, .compute⟩], [], []⟩ : MapState Nat Nat Nat)
        9).pending =
      ([(1, [])] : List (Nat × List (MapCont Nat))).map
        (fun e => (e.1, e.2 ++ [MapCont.clearTail 9])) := by
  have h := map_clear_semantics_C8 Nat Nat Nat
    (⟨[(0, 0), (1, 2)], [(1, [])], [⟨1, 1, .compute⟩], [], []⟩ : MapState Nat Nat Nat) 9
  exact ⟨h.1, h.2.1⟩

end Concurrent
